import Mathlib

/-!
Verification development for `src/useLocalStorage.ts`: a React hook that
synchronizes a reactive value with `window.localStorage` through a JSON
codec, a deep structural-equality comparer, a storage-event change filter,
fallback-value resolution, and an optional one-time fallback mount sync.

The TypeScript source is shallowly embedded: JS values flowing through the
hook are modelled by the `JsonValue` family below, JS exceptions by explicit
result types, and the browser pieces that the source file only calls
(`JSON.parse` / `JSON.stringify`, the `Storage` capability, React's effect
scheduling) are modelled from the specification, as marked on each such
definition.
-/

namespace UseLocalStorage

/-- JS numbers as far as this code can observe them: `NaN`, negative zero,
and other finite values (modelled as integers; the claims under study do not
depend on fractional values).  JSON text itself can represent `-0` but not
`NaN`. -/
inductive JsNumber where
  | nan : JsNumber
  | negZero : JsNumber
  | int : Int → JsNumber
deriving DecidableEq

mutual
/-- The `JsonValue` type of the source (line 4-11): string, number, boolean,
null, array, or string-keyed object.  Arrays and objects are given as a
mutual family so that every function below is structurally recursive and
kernel-computable.  Object fields are in insertion order; JS guarantees the
keys of an actual object are distinct. -/
inductive JsonValue where
  | str : List Char → JsonValue
  | num : JsNumber → JsonValue
  | bool : Bool → JsonValue
  | null : JsonValue
  | arr : JsonList → JsonValue
  | obj : JsonFields → JsonValue

/-- An array of JSON values. -/
inductive JsonList where
  | nil : JsonList
  | cons : JsonValue → JsonList → JsonList

/-- The fields of a JSON object, in insertion order. -/
inductive JsonFields where
  | nil : JsonFields
  | cons : List Char → JsonValue → JsonFields → JsonFields
end

/-- JS strict equality `===` on numbers: `NaN` equals nothing (itself
included), and `0 === -0`. -/
def jsNumEq : JsNumber → JsNumber → Bool
  | .nan, _ => false
  | _, .nan => false
  | .negZero, .negZero => true
  | .negZero, .int n => n == 0
  | .int n, .negZero => n == 0
  | .int m, .int n => m == n

/-- JS strict equality `===` on `JsonValue`s.  Primitives compare by value;
arrays and objects compare by reference, so two separately materialized
composites are never `===`-equal — which is the general situation for the
decoded values this code compares, and is how composites are modelled
here. -/
def jsStrictEq : JsonValue → JsonValue → Bool
  | .str a, .str b => a == b
  | .num a, .num b => jsNumEq a b
  | .bool a, .bool b => a == b
  | .null, .null => true
  | _, _ => false

/-- `typeof v === "object"` — true for `null`, arrays and objects. -/
def isObjectType : JsonValue → Bool
  | .null => true
  | .arr _ => true
  | .obj _ => true
  | _ => false

/-- Array length. -/
def JsonList.length : JsonList → Nat
  | .nil => 0
  | .cons _ tl => tl.length + 1

/-- Number of fields, i.e. `Object.keys(o).length` for an actual JS object
(whose keys are distinct). -/
def JsonFields.length : JsonFields → Nat
  | .nil => 0
  | .cons _ _ tl => tl.length + 1

/-- Property access `o[key]`: the value at the first field named `key`
(unique in an actual JS object), or `undefined` (`none`). -/
def lookupField : JsonFields → List Char → Option JsonValue
  | .nil, _ => none
  | .cons k v rest, key => if k = key then some v else lookupField rest key

mutual
/-- `deepEqual` from the source (lines 182-238): strict-equality
short-circuit, then `typeof`-object test, then the null test, then arrays
(length check plus order-sensitive pairwise recursion), then objects
(key-count check plus per-key recursion on the fields of the first
operand). -/
def deepEqual : JsonValue → JsonValue → Bool
  | v1, v2 =>
    if jsStrictEq v1 v2 then true
    else if !isObjectType v1 || !isObjectType v2 then false
    else match v1, v2 with
      | .null, _ => false
      | _, .null => false
      | .arr l1, .arr l2 =>
        if l1.length != l2.length then false else deepEqualList l1 l2
      | .arr _, _ => false
      | _, .arr _ => false
      | .obj o1, .obj o2 =>
        if o1.length != o2.length then false else deepEqualFields o1 o2
      | _, _ => false

/-- `v1.every((el, i) => deepEqual(el, v2[i]))`: pairwise recursion over the
first array; a missing right-hand element (`undefined`) compares false. -/
def deepEqualList : JsonList → JsonList → Bool
  | .nil, _ => true
  | .cons _ _, .nil => false
  | .cons a as, .cons b bs => deepEqual a b && deepEqualList as bs

/-- The `for (const key in o1)` loop of the source: every field of `o1`
must exist in `o2` (else `o2[key]` is `undefined` and the result is false)
with a deeply-equal value. -/
def deepEqualFields : JsonFields → JsonFields → Bool
  | .nil, _ => true
  | .cons k v rest, o2 =>
    match lookupField o2 k with
    | none => false
    | some w => deepEqual v w && deepEqualFields rest o2
end

/-! ## The JSON codec

`src/useLocalStorage.ts` calls the platform's `JSON.stringify` and
`JSON.parse`, which are not part of the repository.  They are modelled from
the spec (§4.2 Codec, §6 "values are persisted as UTF-8 JSON text"): an
executable printer to JSON text and a recursive-descent parser that fails
(`none`) on malformed text.  Finite numbers are carried as integers and
printed in decimal; strings escape the two characters (`"` and backslash)
that the canonical encoding must escape, other characters pass through
verbatim. -/

/-- Decimal digits of `n`, most significant first, accumulated onto `acc`;
`fuel` bounds the recursion and any `fuel ≥ n` is enough. -/
def natToCharsAux : Nat → Nat → List Char → List Char
  | 0, _, acc => acc
  | fuel + 1, n, acc =>
    if n = 0 then acc
    else natToCharsAux fuel (n / 10) (Nat.digitChar (n % 10) :: acc)

/-- Decimal rendering of a natural number. -/
def natToChars (n : Nat) : List Char :=
  if n = 0 then ['0'] else natToCharsAux n n []

/-- Decimal rendering of an integer, as `JSON.stringify` renders integral
numbers (no sign for zero, a leading minus otherwise when negative). -/
def intToChars (n : Int) : List Char :=
  if n < 0 then '-' :: natToChars n.natAbs else natToChars n.toNat

/-- How `JSON.stringify` renders a number: `NaN` renders as `null`,
negative zero as `0`. -/
def encodeNumber : JsNumber → List Char
  | .nan => ['n', 'u', 'l', 'l']
  | .negZero => ['0']
  | .int n => intToChars n

/-- String escaping: `"` and backslash are escaped, everything else passes
through. -/
def encodeChar (c : Char) : List Char :=
  if c = '"' || c = '\\' then ['\\', c] else [c]

/-- The body of an encoded string literal. -/
def encodeStringBody : List Char → List Char
  | [] => []
  | c :: rest => encodeChar c ++ encodeStringBody rest

/-- A quoted, escaped JSON string literal. -/
def encodeKey (k : List Char) : List Char :=
  '"' :: (encodeStringBody k ++ ['"'])

mutual
/-- Modelled from the spec: the platform `JSON.stringify` on `JsonValue`s
(the repository only calls it; §4.2 of the spec describes it as "encode a
value to text"). -/
def jsonStringify : JsonValue → List Char
  | .str s => encodeKey s
  | .num n => encodeNumber n
  | .bool b => if b then ['t', 'r', 'u', 'e'] else ['f', 'a', 'l', 's', 'e']
  | .null => ['n', 'u', 'l', 'l']
  | .arr l => '[' :: (encodeElems l ++ [']'])
  | .obj ps => '\x7b' :: (encodeMembers ps ++ ['\x7d'])

/-- Comma-separated encoded array elements. -/
def encodeElems : JsonList → List Char
  | .nil => []
  | .cons v .nil => jsonStringify v
  | .cons v (.cons w tl) => jsonStringify v ++ ',' :: encodeElems (.cons w tl)

/-- Comma-separated encoded `"key":value` object members. -/
def encodeMembers : JsonFields → List Char
  | .nil => []
  | .cons k v .nil => encodeKey k ++ ':' :: jsonStringify v
  | .cons k v (.cons k2 w tl) =>
    encodeKey k ++ ':' :: jsonStringify v ++ ',' :: encodeMembers (.cons k2 w tl)
end

/-- The greedy run of decimal digit characters at the head of the input. -/
def takeDigits : List Char → List Char × List Char
  | [] => ([], [])
  | c :: rest =>
    if c.isDigit then
      let p := takeDigits rest
      (c :: p.1, p.2)
    else ([], c :: rest)

/-- Numeric value of a big-endian run of digit characters. -/
def charsToNat (ds : List Char) : Nat :=
  ds.foldl (fun acc c => 10 * acc + (c.toNat - 48)) 0

/-- Parse the body of a string literal after the opening quote, undoing
`encodeChar`'s escapes, up to the closing quote. -/
def parseStringBody : List Char → Option (List Char × List Char)
  | [] => none
  | c :: rest =>
    if c = '"' then some ([], rest)
    else if c = '\\' then
      match rest with
      | [] => none
      | e :: rest2 => (parseStringBody rest2).map (fun p => (e :: p.1, p.2))
    else (parseStringBody rest).map (fun p => (c :: p.1, p.2))

mutual
/-- Modelled from the spec: the platform `JSON.parse`, §4.2 "decode text to
a value, with typed failure on malformed input".  A recursive-descent
parser over the canonical (whitespace-free) JSON grammar `jsonStringify`
emits; malformed input yields `none`.  `fuel` bounds the recursion
depth. -/
def parseValue : Nat → List Char → Option (JsonValue × List Char)
  | 0, _ => none
  | _ + 1, [] => none
  | fuel + 1, c :: rest =>
    if c = 'n' then
      match rest with
      | 'u' :: 'l' :: 'l' :: r => some (.null, r)
      | _ => none
    else if c = 't' then
      match rest with
      | 'r' :: 'u' :: 'e' :: r => some (.bool true, r)
      | _ => none
    else if c = 'f' then
      match rest with
      | 'a' :: 'l' :: 's' :: 'e' :: r => some (.bool false, r)
      | _ => none
    else if c = '"' then
      (parseStringBody rest).map (fun p => (.str p.1, p.2))
    else if c = '[' then
      match rest with
      | [] => none
      | d :: rest2 =>
        if d = ']' then some (.arr .nil, rest2)
        else (parseElems fuel (d :: rest2)).map (fun p => (.arr p.1, p.2))
    else if c = '\x7b' then
      match rest with
      | [] => none
      | d :: rest2 =>
        if d = '\x7d' then some (.obj .nil, rest2)
        else (parseMembers fuel (d :: rest2)).map (fun p => (.obj p.1, p.2))
    else if c = '-' then
      let p := takeDigits rest
      if p.1.isEmpty then none
      else some (.num (.int (-(charsToNat p.1 : Int))), p.2)
    else if c.isDigit then
      let p := takeDigits (c :: rest)
      some (.num (.int (charsToNat p.1 : Int)), p.2)
    else none

/-- Parse one or more comma-separated values terminated by `]`. -/
def parseElems : Nat → List Char → Option (JsonList × List Char)
  | 0, _ => none
  | fuel + 1, input =>
    match parseValue fuel input with
    | none => none
    | some (v, rest) =>
      match rest with
      | [] => none
      | d :: rest2 =>
        if d = ',' then (parseElems fuel rest2).map (fun p => (.cons v p.1, p.2))
        else if d = ']' then some (.cons v .nil, rest2)
        else none

/-- Parse one or more comma-separated `"key":value` members terminated by
the closing brace. -/
def parseMembers : Nat → List Char → Option (JsonFields × List Char)
  | 0, _ => none
  | fuel + 1, input =>
    match input with
    | [] => none
    | c :: rest =>
      if c = '"' then
        match parseStringBody rest with
        | none => none
        | some (k, rest1) =>
          match rest1 with
          | [] => none
          | d :: rest2 =>
            if d = ':' then
              match parseValue fuel rest2 with
              | none => none
              | some (v, rest3) =>
                match rest3 with
                | [] => none
                | e :: rest4 =>
                  if e = ',' then
                    (parseMembers fuel rest4).map (fun p => (.cons k v p.1, p.2))
                  else if e = '\x7d' then some (.cons k v .nil, rest4)
                  else none
            else none
      else none
end

/-- Modelled from the spec: a whole-input `JSON.parse` call.  The fuel
`length + 1` is always sufficient (proved below for encoded values). -/
def jsonParse (text : List Char) : Option JsonValue :=
  match parseValue (text.length + 1) text with
  | none => none
  | some (v, rest) => if rest.isEmpty then some v else none

mutual
/-- What surviving a `JSON.stringify`/`JSON.parse` round trip does to a
value: `NaN` collapses to `null` (it prints as `null`) and negative zero
to plain `0` (it prints as `0`); everything else is untouched. -/
def jsonNormalize : JsonValue → JsonValue
  | .str s => .str s
  | .num .nan => .null
  | .num .negZero => .num (.int 0)
  | .num (.int n) => .num (.int n)
  | .bool b => .bool b
  | .null => .null
  | .arr l => .arr (normalizeElems l)
  | .obj ps => .obj (normalizeMembers ps)

/-- `jsonNormalize` on each array element. -/
def normalizeElems : JsonList → JsonList
  | .nil => .nil
  | .cons v tl => .cons (jsonNormalize v) (normalizeElems tl)

/-- `jsonNormalize` on each member value. -/
def normalizeMembers : JsonFields → JsonFields
  | .nil => .nil
  | .cons k v tl => .cons k (jsonNormalize v) (normalizeMembers tl)
end

/-- Whether an object already has a field named `k`. -/
def hasField (ps : JsonFields) (k : List Char) : Bool :=
  (lookupField ps k).isSome

/-- The keys of one object level are pairwise distinct (true of every
actual JS object). -/
def fieldsNodup : JsonFields → Bool
  | .nil => true
  | .cons k _ tl => !hasField tl k && fieldsNodup tl

mutual
/-- The value contains no `NaN` anywhere (JSON text cannot represent
`NaN`). -/
def noNaN : JsonValue → Bool
  | .num .nan => false
  | .arr l => noNaNElems l
  | .obj ps => noNaNMembers ps
  | _ => true

/-- `noNaN` on each array element. -/
def noNaNElems : JsonList → Bool
  | .nil => true
  | .cons v tl => noNaN v && noNaNElems tl

/-- `noNaN` on each member value. -/
def noNaNMembers : JsonFields → Bool
  | .nil => true
  | .cons _ v tl => noNaN v && noNaNMembers tl
end

mutual
/-- Every object inside the value has pairwise-distinct keys, as every
actual JS object does. -/
def distinctKeys : JsonValue → Bool
  | .arr l => distinctKeysElems l
  | .obj ps => fieldsNodup ps && distinctKeysMembers ps
  | _ => true

/-- `distinctKeys` on each array element. -/
def distinctKeysElems : JsonList → Bool
  | .nil => true
  | .cons v tl => distinctKeys v && distinctKeysElems tl

/-- `distinctKeys` on each member value. -/
def distinctKeysMembers : JsonFields → Bool
  | .nil => true
  | .cons _ v tl => distinctKeys v && distinctKeysMembers tl
end

/-- A representable `JsonValue` (spec §3): a value an actual JS program can
hold under the `JsonValue` type — no `NaN` members (not a JSON value) and
distinct keys in every object. -/
def representable (v : JsonValue) : Bool :=
  noNaN v && distinctKeys v

/-! ## The store and the hook's operations -/

/-- The contents of a browser `Storage` object: keys associated to raw
text.  Modelled from the spec (§4.3, §6: the store itself is an external
capability with `get`/`set`/`remove`). -/
abbrev Storage := List (List Char × List Char)

/-- `localStorage.getItem`: the text under `key`, or `null` (`none`). -/
def getItem : Storage → List Char → Option (List Char)
  | [], _ => none
  | (k, v) :: rest, key => if k = key then some v else getItem rest key

/-- Drop every entry under `key`. -/
def eraseItem : Storage → List Char → Storage
  | [], _ => []
  | (k, v) :: rest, key =>
    if k = key then eraseItem rest key else (k, v) :: eraseItem rest key

/-- `localStorage.setItem` when the store accepts the write. -/
def setItem (s : Storage) (key text : List Char) : Storage :=
  (key, text) :: eraseItem s key

/-- `localStorage.removeItem` when the store accepts the removal. -/
def removeItem (s : Storage) (key : List Char) : Storage :=
  eraseItem s key

/-- `readFromLocalStorage` (source lines 109-122).  The first component is
the JS return value `TReturn | null`, with `.null` covering both an absent
key and a stored JSON `null`; the second counts the reports sent to the
error callback during this call.  The function is total: a decoding
failure is caught inside, reported once, and turned into `null`. -/
def readFromLocalStorage (storage : Storage) (key : List Char) : JsonValue × Nat :=
  match getItem storage key with
  | none => (.null, 0)
  | some payload =>
    match jsonParse payload with
    | some parsed => (parsed, 0)
    | none => (.null, 1)

/-- `v === null`. -/
def isNull : JsonValue → Bool
  | .null => true
  | _ => false

/-- The `hookValue` expression (source lines 129-132): the effective value
— the fallback when the committed value is `null` and a `fallbackValue`
was configured (`none` models an omitted, `undefined`, fallback), the
committed value otherwise. -/
def hookValue (storageValue : JsonValue) (fallbackValue : Option JsonValue) : JsonValue :=
  match fallbackValue with
  | some fb => if isNull storageValue then fb else storageValue
  | none => storageValue

/-- A browser `StorageEvent` as the handler reads it: the identity of the
store it reports on (stores modelled by numeric identities), the affected
key (`none` for a `clear()` event), and the raw old and new texts (`none`
for absent). -/
structure StorageEvent where
  storageArea : Nat
  key : Option (List Char)
  oldValue : Option (List Char)
  newValue : Option (List Char)

/-- Everything one `onStorageUpdate` call may do: nothing, call
`notifyReact`, or report a decoding error to the error callback. -/
inductive StorageUpdateAction where
  | none
  | notifyReact
  | reportError
deriving DecidableEq

/-- The storage-event handler `onStorageUpdate` (source lines 74-101),
bound to the hook's store instance and watched key: ignore events for
other stores or keys; on creation or deletion of the entry signal iff the
two sides differ (they always do when exactly one is absent); otherwise
decode both sides — reporting a failure to the error callback instead of
signalling — and signal iff the decoded values are not deeply equal. -/
def onStorageUpdate (localStorageId : Nat) (key : List Char)
    (event : StorageEvent) : StorageUpdateAction :=
  if event.storageArea != localStorageId || event.key != some key then .none
  else
    match event.oldValue, event.newValue with
    | none, none => .none
    | none, some _ => .notifyReact
    | some _, none => .notifyReact
    | some o, some n =>
      match jsonParse o, jsonParse n with
      | some oldParsed, some newParsed =>
        if !deepEqual oldParsed newParsed then .notifyReact else .none
      | _, _ => .reportError

/-- The kinds of error the hook can route to `onError` (spec §7), plus a
kind for an exception thrown by a functional updater. -/
inductive ErrorKind where
  | decoding
  | encoding
  | storeSet
  | storeRemove
  | updater
deriving DecidableEq

/-- The result of a JS computation that can throw. -/
inductive JsResult (α : Type) where
  | ok : α → JsResult α
  | thrown : ErrorKind → JsResult α

/-- A `setValue` payload: a literal value (`null` included) or a functional
updater, which itself may throw. -/
inductive SetPayload where
  | literal : JsonValue → SetPayload
  | updater : (JsonValue → JsResult JsonValue) → SetPayload

/-- How one `setLocalStorageValue` call ends: an exception escapes to the
caller, or the call returns normally having reported the listed errors to
the error callback; either way the store is left in the given state. -/
inductive SetValueResult where
  | threw : ErrorKind → Storage → SetValueResult
  | returned : List ErrorKind → Storage → SetValueResult
deriving DecidableEq

/-- The write half of `setLocalStorageValue` (source lines 148-158), after
the payload has been resolved to `newValue`.  The three Booleans say
whether the encoder and the store's `setItem`/`removeItem` throw on this
call: the store may throw on writes (spec §4.3) and `JSON.stringify` may
throw on non-representable members (spec §4.2).  The `removeItem` call
sits outside every `try` block in the source, so its failure escapes;
`JSON.stringify` and `setItem` sit inside one `try`, whose `catch` reports
to the error callback. -/
def writeNewValue (key : List Char) (removeNullValues : Bool) (newValue : JsonValue)
    (storage : Storage) (encodeFails setFails removeFails : Bool) : SetValueResult :=
  if isNull newValue && removeNullValues then
    if removeFails then .threw .storeRemove storage
    else .returned [] (removeItem storage key)
  else
    if encodeFails then .returned [.encoding] storage
    else if setFails then .returned [.storeSet] storage
    else .returned [] (setItem storage key (jsonStringify newValue))

/-- `setLocalStorageValue` (source lines 134-160): resolve the payload —
catching a throwing updater, reporting the thrown error and skipping the
write — then write.  `hv` is the `hookValue` of the rendering that
produced this setter. -/
def setLocalStorageValue (key : List Char) (removeNullValues : Bool)
    (hv : JsonValue) (payload : SetPayload) (storage : Storage)
    (encodeFails setFails removeFails : Bool) : SetValueResult :=
  match payload with
  | .updater f =>
    match f hv with
    | .thrown e => .returned [e] storage
    | .ok newValue =>
      writeNewValue key removeNullValues newValue storage encodeFails setFails removeFails
  | .literal newValue =>
    writeNewValue key removeNullValues newValue storage encodeFails setFails removeFails

/-- The `useEffect` body (source lines 166-177): when `syncFallbackOnMount`
is set, the committed value is `null`, and a fallback is configured, write
the encoded fallback to the store. -/
def mountSyncEffect (key : List Char) (syncFallbackOnMount : Bool)
    (fallbackValue : Option JsonValue) (storage : Storage) : Storage :=
  let storageValue := (readFromLocalStorage storage key).1
  let canSyncOnMount := syncFallbackOnMount && isNull storageValue && fallbackValue.isSome
  if !canSyncOnMount then storage
  else
    match fallbackValue with
    | some fb => setItem storage key (jsonStringify fb)
    | none => storage

/-- One hook instance: the store state it sees plus whether its mount
effect has already run. -/
structure HookInstance where
  storage : Storage
  effectRan : Bool
deriving DecidableEq

/-- Modelled from the spec (§4.6: the mount sync runs "exactly once at
startup", "keyed to the controller's creation, not to reactive
re-evaluation"): React runs an effect whose dependency list is empty once,
after the first render, and re-evaluations — whatever props they carry —
do not re-run it.  `renderStep` is one render with the current fallback
value. -/
def renderStep (key : List Char) (syncFallbackOnMount : Bool)
    (fallbackValue : Option JsonValue) (inst : HookInstance) : HookInstance :=
  if inst.effectRan then inst
  else ⟨mountSyncEffect key syncFallbackOnMount fallbackValue inst.storage, true⟩

/-- Mounting the hook: the first render, on a fresh instance. -/
def mountHook (key : List Char) (syncFallbackOnMount : Bool)
    (fallbackValue : Option JsonValue) (storage : Storage) : HookInstance :=
  renderStep key syncFallbackOnMount fallbackValue ⟨storage, false⟩

/-- The input does not start with a decimal digit — the boundary condition
under which the greedy number token ends where the encoder put it. -/
def noDigitHead : List Char → Bool
  | [] => true
  | c :: _ => !c.isDigit

/-- The characters that can start an encoded JSON value. -/
def isValueStart (c : Char) : Bool :=
  c = '"' || c = 'n' || c = 't' || c = 'f' || c = '[' || c = '\x7b' || c = '-' || c.isDigit

/-- Membership of a `key ↦ value` entry in an object's field list. -/
inductive FieldMem : List Char → JsonValue → JsonFields → Prop where
  | head (k : List Char) (v : JsonValue) (tl : JsonFields) : FieldMem k v (.cons k v tl)
  | tail (k : List Char) (v : JsonValue) (k2 : List Char) (v2 : JsonValue)
      (tl : JsonFields) : FieldMem k v tl → FieldMem k v (.cons k2 v2 tl)

/-! ## Helper lemmas -/

theorem natToCharsAux_eq (n : Nat) : ∀ (fuel : Nat) (acc : List Char), n ≤ fuel →
    natToCharsAux fuel n acc = ((Nat.digits 10 n).map Nat.digitChar).reverse ++ acc := by
  induction n using Nat.strong_induction_on with
  | _ n ih =>
    intro fuel acc hle
    match fuel with
    | 0 =>
      have hn : n = 0 := Nat.le_zero.mp hle
      subst hn
      simp [natToCharsAux]
    | f + 1 =>
      by_cases hn : n = 0
      · subst hn
        simp [natToCharsAux]
      · have hdiv : n / 10 < n := Nat.div_lt_self (Nat.pos_of_ne_zero hn) (by omega)
        have hstep : natToCharsAux (f + 1) n acc
            = natToCharsAux f (n / 10) (Nat.digitChar (n % 10) :: acc) := by
          simp [natToCharsAux, hn]
        rw [hstep, ih (n / 10) hdiv f _ (by omega)]
        rw [Nat.digits_def' (by omega : 1 < 10) (Nat.pos_of_ne_zero hn)]
        simp

theorem digitChar_toNat (d : Nat) (hd : d < 10) : (Nat.digitChar d).toNat - 48 = d := by
  interval_cases d <;> rfl

theorem digitChar_isDigit (d : Nat) (hd : d < 10) : (Nat.digitChar d).isDigit = true := by
  interval_cases d <;> rfl

theorem charsToNat_rev_digits (L : List Nat) (hL : ∀ d ∈ L, d < 10) :
    charsToNat ((L.map Nat.digitChar).reverse) = Nat.ofDigits 10 L := by
  induction L with
  | nil => rfl
  | cons d L ih =>
    have hrev : ((d :: L).map Nat.digitChar).reverse
        = (L.map Nat.digitChar).reverse ++ [Nat.digitChar d] := by simp
    rw [hrev]
    have happ : charsToNat ((L.map Nat.digitChar).reverse ++ [Nat.digitChar d])
        = 10 * charsToNat ((L.map Nat.digitChar).reverse)
          + ((Nat.digitChar d).toNat - 48) := by
      simp [charsToNat, List.foldl_append]
    rw [happ, ih (fun e he => hL e (List.mem_cons_of_mem d he)),
      digitChar_toNat d (hL d (List.mem_cons_self d L)), Nat.ofDigits_cons]
    ring

theorem charsToNat_natToChars (n : Nat) : charsToNat (natToChars n) = n := by
  by_cases hn : n = 0
  · subst hn
    rfl
  · have h1 : natToChars n = ((Nat.digits 10 n).map Nat.digitChar).reverse := by
      simp only [natToChars, if_neg hn]
      rw [natToCharsAux_eq n n [] (le_refl n)]
      simp
    rw [h1, charsToNat_rev_digits _ (fun d hd => Nat.digits_lt_base (by omega) hd)]
    exact Nat.ofDigits_digits 10 n

theorem natToChars_digits (n : Nat) : ∀ c ∈ natToChars n, c.isDigit = true := by
  by_cases hn : n = 0
  · subst hn
    intro c hc
    simp [natToChars] at hc
    subst hc
    rfl
  · have h1 : natToChars n = ((Nat.digits 10 n).map Nat.digitChar).reverse := by
      simp only [natToChars, if_neg hn]
      rw [natToCharsAux_eq n n [] (le_refl n)]
      simp
    rw [h1]
    intro c hc
    rw [List.mem_reverse, List.mem_map] at hc
    obtain ⟨d, hd, rfl⟩ := hc
    exact digitChar_isDigit d (Nat.digits_lt_base (by omega) hd)

theorem natToChars_ne_nil (n : Nat) : natToChars n ≠ [] := by
  by_cases hn : n = 0
  · subst hn
    simp [natToChars]
  · have h1 : natToChars n = ((Nat.digits 10 n).map Nat.digitChar).reverse := by
      simp only [natToChars, if_neg hn]
      rw [natToCharsAux_eq n n [] (le_refl n)]
      simp
    rw [h1]
    simp [Nat.digits_ne_nil_iff_ne_zero.mpr hn]

theorem takeDigits_append (ds : List Char) : ∀ rest : List Char,
    (∀ c ∈ ds, c.isDigit = true) → noDigitHead rest = true →
    takeDigits (ds ++ rest) = (ds, rest) := by
  induction ds with
  | nil =>
    intro rest _ hrest
    match rest with
    | [] => rfl
    | c :: r =>
      have hc : c.isDigit = false := by
        simpa [noDigitHead] using hrest
      simp [takeDigits, hc]
  | cons d ds ih =>
    intro rest hds hrest
    have hd : d.isDigit = true := hds d (List.mem_cons_self d ds)
    have htl := ih rest (fun c hc => hds c (List.mem_cons_of_mem d hc)) hrest
    simp [takeDigits, hd, htl]

theorem parseStringBody_encode (s : List Char) : ∀ rest : List Char,
    parseStringBody (encodeStringBody s ++ ('"' :: rest)) = some (s, rest) := by
  induction s with
  | nil =>
    intro rest
    show parseStringBody ([] ++ ('"' :: rest)) = some ([], rest)
    rw [List.nil_append, parseStringBody.eq_def]
    simp
  | cons c s ih =>
    intro rest
    by_cases hc : c = '"' ∨ c = '\\'
    · have henc : encodeChar c = ['\\', c] := by
        rcases hc with h | h <;> simp [encodeChar, h]
      have hshape : encodeStringBody (c :: s) ++ ('"' :: rest)
          = '\\' :: c :: (encodeStringBody s ++ ('"' :: rest)) := by
        simp [encodeStringBody, henc]
      have hstep : parseStringBody ('\\' :: c :: (encodeStringBody s ++ ('"' :: rest)))
          = (parseStringBody (encodeStringBody s ++ ('"' :: rest))).map
              (fun p => (c :: p.1, p.2)) := by
        rw [parseStringBody.eq_def]
        simp
      rw [hshape, hstep, ih rest]
      rfl
    · push_neg at hc
      have henc : encodeChar c = [c] := by
        simp [encodeChar, hc.1, hc.2]
      have hshape : encodeStringBody (c :: s) ++ ('"' :: rest)
          = c :: (encodeStringBody s ++ ('"' :: rest)) := by
        simp [encodeStringBody, henc]
      have hstep : parseStringBody (c :: (encodeStringBody s ++ ('"' :: rest)))
          = (parseStringBody (encodeStringBody s ++ ('"' :: rest))).map
              (fun p => (c :: p.1, p.2)) := by
        rw [parseStringBody.eq_def]
        simp [hc.1, hc.2]
      rw [hshape, hstep, ih rest]
      rfl

theorem deepEqual_num (a b : JsNumber) :
    deepEqual (.num a) (.num b) = jsNumEq a b := by
  show (if jsStrictEq (.num a) (.num b) then true
        else if !isObjectType (JsonValue.num a) || !isObjectType (.num b) then false
        else false) = jsNumEq a b
  simp only [jsStrictEq, isObjectType, Bool.not_false, Bool.true_or, if_true]
  cases h : jsNumEq a b <;> simp [h]

theorem jsNumEq_refl (a : JsNumber) (h : a ≠ .nan) : jsNumEq a a = true := by
  cases a with
  | nan => exact absurd rfl h
  | negZero => rfl
  | int n => simp [jsNumEq]

theorem isDigit_not_special (c : Char) (h : c.isDigit = true) :
    ¬(c = 'n') ∧ ¬(c = 't') ∧ ¬(c = 'f') ∧ ¬(c = '"') ∧ ¬(c = '[') ∧
      ¬(c = '\x7b') ∧ ¬(c = '-') := by
  refine ⟨?_, ?_, ?_, ?_, ?_, ?_, ?_⟩ <;> rintro rfl <;> exact absurd h (by decide)

theorem isValueStart_ne (c : Char) (h : isValueStart c = true) :
    ¬(c = ']') ∧ ¬(c = '\x7d') ∧ ¬(c = ',') := by
  refine ⟨?_, ?_, ?_⟩ <;> rintro rfl <;> exact absurd h (by decide)

theorem isValueStart_isDigit (c : Char) (h : c.isDigit = true) : isValueStart c = true := by
  simp [isValueStart, h]

theorem jsonStringify_head (v : JsonValue) :
    ∃ c cs, jsonStringify v = c :: cs ∧ isValueStart c = true := by
  cases v with
  | str s =>
    exact ⟨'"', encodeStringBody s ++ ['"'], by simp [jsonStringify, encodeKey], by decide⟩
  | num nn =>
    cases nn with
    | nan => exact ⟨'n', ['u', 'l', 'l'], by simp [jsonStringify, encodeNumber], by decide⟩
    | negZero => exact ⟨'0', [], by simp [jsonStringify, encodeNumber], by decide⟩
    | int n =>
      by_cases hn : n < 0
      · exact ⟨'-', natToChars n.natAbs,
          by simp [jsonStringify, encodeNumber, intToChars, hn], by decide⟩
      · match hsh : natToChars n.toNat with
        | [] => exact absurd hsh (natToChars_ne_nil n.toNat)
        | c :: cs =>
          have hd : c.isDigit = true := by
            apply natToChars_digits n.toNat
            rw [hsh]
            exact List.mem_cons_self c cs
          exact ⟨c, cs,
            by simp [jsonStringify, encodeNumber, intToChars, hn, hsh],
            isValueStart_isDigit c hd⟩
  | bool b =>
    cases b with
    | true => exact ⟨'t', ['r', 'u', 'e'], by simp [jsonStringify], by decide⟩
    | false => exact ⟨'f', ['a', 'l', 's', 'e'], by simp [jsonStringify], by decide⟩
  | null => exact ⟨'n', ['u', 'l', 'l'], by simp [jsonStringify], by decide⟩
  | arr l => exact ⟨'[', encodeElems l ++ [']'], by simp [jsonStringify], by decide⟩
  | obj ps => exact ⟨'\x7b', encodeMembers ps ++ ['\x7d'], by simp [jsonStringify], by decide⟩

theorem jsonStringify_length_pos (v : JsonValue) : 0 < (jsonStringify v).length := by
  obtain ⟨c, cs, hv, _⟩ := jsonStringify_head v
  simp [hv]

theorem encodeElems_head (v : JsonValue) (tl : JsonList) :
    ∃ c cs, encodeElems (.cons v tl) = c :: cs ∧ isValueStart c = true := by
  obtain ⟨c, cs, hv, hc⟩ := jsonStringify_head v
  cases tl with
  | nil => exact ⟨c, cs, by simp [encodeElems, hv], hc⟩
  | cons w tl2 =>
    exact ⟨c, cs ++ ',' :: encodeElems (.cons w tl2), by simp [encodeElems, hv], hc⟩

theorem encodeMembers_head (k : List Char) (v : JsonValue) (tl : JsonFields) :
    ∃ cs, encodeMembers (.cons k v tl) = '"' :: cs := by
  cases tl with
  | nil =>
    exact ⟨encodeStringBody k ++ ('"' :: ':' :: jsonStringify v),
      by simp [encodeMembers, encodeKey]⟩
  | cons k2 w tl2 =>
    exact ⟨encodeStringBody k
        ++ ('"' :: ':' :: (jsonStringify v ++ ',' :: encodeMembers (.cons k2 w tl2))),
      by simp [encodeMembers, encodeKey]⟩

theorem parseValue_digit (f : Nat) (c : Char) (S : List Char) (h : c.isDigit = true) :
    parseValue (f + 1) (c :: S)
      = some (.num (.int (charsToNat (takeDigits (c :: S)).1 : Int)),
          (takeDigits (c :: S)).2) := by
  obtain ⟨h1, h2, h3, h4, h5, h6, h7⟩ := isDigit_not_special c h
  simp [parseValue, h1, h2, h3, h4, h5, h6, h7, h]

mutual

theorem parseValue_stringify (v : JsonValue) : ∀ (fuel : Nat) (rest : List Char),
    (jsonStringify v).length < fuel → noDigitHead rest = true →
    parseValue fuel (jsonStringify v ++ rest) = some (jsonNormalize v, rest) := by
  cases v with
  | str s =>
    intro fuel rest hfuel hrest
    match fuel with
    | 0 => omega
    | f + 1 =>
      have hshape : jsonStringify (.str s) ++ rest
          = '"' :: (encodeStringBody s ++ ('"' :: rest)) := by
        simp [jsonStringify, encodeKey]
      rw [hshape]
      have hstep : parseValue (f + 1) ('"' :: (encodeStringBody s ++ ('"' :: rest)))
          = (parseStringBody (encodeStringBody s ++ ('"' :: rest))).map
              (fun p => (.str p.1, p.2)) := by
        simp [parseValue]
      rw [hstep, parseStringBody_encode s rest]
      simp [jsonNormalize]
  | num nn =>
    cases nn with
    | nan =>
      intro fuel rest hfuel hrest
      match fuel with
      | 0 => omega
      | f + 1 =>
        have hshape : jsonStringify (.num .nan) ++ rest = 'n' :: 'u' :: 'l' :: 'l' :: rest := by
          simp [jsonStringify, encodeNumber]
        rw [hshape]
        simp [parseValue, jsonNormalize]
    | negZero =>
      intro fuel rest hfuel hrest
      match fuel with
      | 0 => omega
      | f + 1 =>
        have hshape : jsonStringify (.num .negZero) ++ rest = '0' :: rest := by
          simp [jsonStringify, encodeNumber]
        have ht : takeDigits ('0' :: rest) = (['0'], rest) := by
          have h0 : ∀ c ∈ ['0'], c.isDigit = true := by
            intro c hc
            rw [List.mem_singleton] at hc
            subst hc
            rfl
          have := takeDigits_append ['0'] rest h0 hrest
          simpa using this
        rw [hshape, parseValue_digit f '0' rest (by rfl), ht]
        simp [jsonNormalize, charsToNat]
    | int n =>
      intro fuel rest hfuel hrest
      match fuel with
      | 0 => omega
      | f + 1 =>
        by_cases hn : n < 0
        · have hshape : jsonStringify (.num (.int n)) ++ rest
              = '-' :: (natToChars n.natAbs ++ rest) := by
            simp [jsonStringify, encodeNumber, intToChars, hn]
          have ht : takeDigits (natToChars n.natAbs ++ rest) = (natToChars n.natAbs, rest) :=
            takeDigits_append (natToChars n.natAbs) rest (natToChars_digits n.natAbs) hrest
          have hnonempty : (natToChars n.natAbs).isEmpty = false := by
            match hsh : natToChars n.natAbs with
            | [] => exact absurd hsh (natToChars_ne_nil n.natAbs)
            | c :: cs => rfl
          have hstep : parseValue (f + 1) ('-' :: (natToChars n.natAbs ++ rest))
              = some (.num (.int (-(charsToNat (natToChars n.natAbs) : Int))), rest) := by
            simp [parseValue, ht, hnonempty]
          rw [hshape, hstep, charsToNat_natToChars]
          have hval : -(n.natAbs : Int) = n := by omega
          rw [hval]
          simp [jsonNormalize]
        · have hshape : jsonStringify (.num (.int n)) ++ rest = natToChars n.toNat ++ rest := by
            simp [jsonStringify, encodeNumber, intToChars, hn]
          match hsh : natToChars n.toNat with
          | [] => exact absurd hsh (natToChars_ne_nil n.toNat)
          | c :: cs =>
            have hd : c.isDigit = true := by
              apply natToChars_digits n.toNat
              rw [hsh]
              exact List.mem_cons_self c cs
            have ht : takeDigits (c :: (cs ++ rest)) = (c :: cs, rest) := by
              have hall : ∀ e ∈ c :: cs, e.isDigit = true := by
                rw [← hsh]
                exact natToChars_digits n.toNat
              have := takeDigits_append (c :: cs) rest hall hrest
              simpa using this
            rw [hshape, hsh, List.cons_append, parseValue_digit f c (cs ++ rest) hd, ht]
            have hcn : charsToNat (c :: cs) = n.toNat := by
              rw [← hsh]
              exact charsToNat_natToChars n.toNat
            rw [hcn]
            have hval : (n.toNat : Int) = n := by omega
            rw [hval]
            simp [jsonNormalize]
  | bool b =>
    intro fuel rest hfuel hrest
    match fuel with
    | 0 => omega
    | f + 1 =>
      cases b with
      | true =>
        have hshape : jsonStringify (.bool true) ++ rest
            = 't' :: 'r' :: 'u' :: 'e' :: rest := by
          simp [jsonStringify]
        rw [hshape]
        simp [parseValue, jsonNormalize]
      | false =>
        have hshape : jsonStringify (.bool false) ++ rest
            = 'f' :: 'a' :: 'l' :: 's' :: 'e' :: rest := by
          simp [jsonStringify]
        rw [hshape]
        simp [parseValue, jsonNormalize]
  | null =>
    intro fuel rest hfuel hrest
    match fuel with
    | 0 => omega
    | f + 1 =>
      have hshape : jsonStringify .null ++ rest = 'n' :: 'u' :: 'l' :: 'l' :: rest := by
        simp [jsonStringify]
      rw [hshape]
      simp [parseValue, jsonNormalize]
  | arr l =>
    intro fuel rest hfuel hrest
    match fuel with
    | 0 => omega
    | f + 1 =>
      cases l with
      | nil =>
        have hshape : jsonStringify (.arr .nil) ++ rest = '[' :: ']' :: rest := by
          simp [jsonStringify, encodeElems]
        rw [hshape]
        simp [parseValue, jsonNormalize, normalizeElems]
      | cons w tl =>
        obtain ⟨c, cs, he, hc⟩ := encodeElems_head w tl
        have hne : ¬(c = ']') := (isValueStart_ne c hc).1
        have hshape : jsonStringify (.arr (.cons w tl)) ++ rest
            = '[' :: c :: (cs ++ (']' :: rest)) := by
          simp [jsonStringify, he]
        rw [hshape]
        have hstep : parseValue (f + 1) ('[' :: c :: (cs ++ (']' :: rest)))
            = (parseElems f (c :: (cs ++ (']' :: rest)))).map
                (fun p => (.arr p.1, p.2)) := by
          simp [parseValue, hne]
        rw [hstep]
        have hback : c :: (cs ++ (']' :: rest)) = encodeElems (.cons w tl) ++ (']' :: rest) := by
          rw [he]
          simp
        rw [hback]
        have hlen : (encodeElems (.cons w tl)).length + 1 < f := by
          have h2 : (jsonStringify (.arr (.cons w tl))).length
              = (encodeElems (.cons w tl)).length + 2 := by
            simp [jsonStringify]
          omega
        rw [parseElems_stringify (.cons w tl) f rest (fun h => nomatch h) hlen]
        simp [jsonNormalize]
  | obj ps =>
    intro fuel rest hfuel hrest
    match fuel with
    | 0 => omega
    | f + 1 =>
      cases ps with
      | nil =>
        have hshape : jsonStringify (.obj .nil) ++ rest = '\x7b' :: '\x7d' :: rest := by
          simp [jsonStringify, encodeMembers]
        rw [hshape]
        simp [parseValue, jsonNormalize, normalizeMembers]
      | cons k v tl =>
        obtain ⟨cs, he⟩ := encodeMembers_head k v tl
        have hshape : jsonStringify (.obj (.cons k v tl)) ++ rest
            = '\x7b' :: '"' :: (cs ++ ('\x7d' :: rest)) := by
          simp [jsonStringify, he]
        rw [hshape]
        have hstep : parseValue (f + 1) ('\x7b' :: '"' :: (cs ++ ('\x7d' :: rest)))
            = (parseMembers f ('"' :: (cs ++ ('\x7d' :: rest)))).map
                (fun p => (.obj p.1, p.2)) := by
          simp [parseValue]
        rw [hstep]
        have hback : '"' :: (cs ++ ('\x7d' :: rest))
            = encodeMembers (.cons k v tl) ++ ('\x7d' :: rest) := by
          rw [he]
          simp
        rw [hback]
        have hlen : (encodeMembers (.cons k v tl)).length + 1 < f := by
          have h2 : (jsonStringify (.obj (.cons k v tl))).length
              = (encodeMembers (.cons k v tl)).length + 2 := by
            simp [jsonStringify]
          omega
        rw [parseMembers_stringify (.cons k v tl) f rest (fun h => nomatch h) hlen]
        simp [jsonNormalize]

theorem parseElems_stringify (l : JsonList) : ∀ (fuel : Nat) (rest : List Char),
    l ≠ .nil → (encodeElems l).length + 1 < fuel →
    parseElems fuel (encodeElems l ++ (']' :: rest)) = some (normalizeElems l, rest) := by
  cases l with
  | nil =>
    intro fuel rest hne _
    exact absurd rfl hne
  | cons v tl =>
    intro fuel rest _ hfuel
    match fuel with
    | 0 => omega
    | f + 1 =>
      cases tl with
      | nil =>
        have hshape : encodeElems (.cons v .nil) ++ (']' :: rest)
            = jsonStringify v ++ (']' :: rest) := by
          simp [encodeElems]
        have hlen : (jsonStringify v).length < f := by
          have h2 : (encodeElems (.cons v JsonList.nil)).length
              = (jsonStringify v).length := by
            simp [encodeElems]
          omega
        rw [hshape]
        simp only [parseElems]
        rw [parseValue_stringify v f (']' :: rest) hlen (by simp [noDigitHead])]
        simp [normalizeElems]
      | cons w tl2 =>
        have hshape : encodeElems (.cons v (.cons w tl2)) ++ (']' :: rest)
            = jsonStringify v
              ++ (',' :: (encodeElems (.cons w tl2) ++ (']' :: rest))) := by
          simp [encodeElems]
        have hpos := jsonStringify_length_pos v
        have hlens : (encodeElems (.cons v (.cons w tl2))).length
            = (jsonStringify v).length + 1 + (encodeElems (.cons w tl2)).length := by
          simp [encodeElems]
          omega
        have hlen1 : (jsonStringify v).length < f := by omega
        have hlen2 : (encodeElems (.cons w tl2)).length + 1 < f := by omega
        rw [hshape]
        simp only [parseElems]
        rw [parseValue_stringify v f _ hlen1 (by simp [noDigitHead])]
        have hB := parseElems_stringify (.cons w tl2) f rest (fun h => nomatch h) hlen2
        simp [hB, normalizeElems]

theorem parseMembers_stringify (ps : JsonFields) : ∀ (fuel : Nat) (rest : List Char),
    ps ≠ .nil → (encodeMembers ps).length + 1 < fuel →
    parseMembers fuel (encodeMembers ps ++ ('\x7d' :: rest)) = some (normalizeMembers ps, rest) := by
  cases ps with
  | nil =>
    intro fuel rest hne _
    exact absurd rfl hne
  | cons k v tl =>
    intro fuel rest _ hfuel
    match fuel with
    | 0 => omega
    | f + 1 =>
      cases tl with
      | nil =>
        have hshape : encodeMembers (.cons k v .nil) ++ ('\x7d' :: rest)
            = '"' :: (encodeStringBody k
                ++ ('"' :: (':' :: (jsonStringify v ++ ('\x7d' :: rest))))) := by
          simp [encodeMembers, encodeKey]
        have hlens : (encodeMembers (.cons k v JsonFields.nil)).length
            = (encodeStringBody k).length + 3 + (jsonStringify v).length := by
          simp [encodeMembers, encodeKey]
          omega
        have hlen : (jsonStringify v).length < f := by omega
        rw [hshape]
        simp only [parseMembers]
        rw [parseStringBody_encode k (':' :: (jsonStringify v ++ ('\x7d' :: rest)))]
        simp only [Option.map_some]
        rw [parseValue_stringify v f ('\x7d' :: rest) hlen (by simp [noDigitHead])]
        simp [normalizeMembers]
      | cons k2 w tl2 =>
        have hshape : encodeMembers (.cons k v (.cons k2 w tl2)) ++ ('\x7d' :: rest)
            = '"' :: (encodeStringBody k
                ++ ('"' :: (':' :: (jsonStringify v
                  ++ (',' :: (encodeMembers (.cons k2 w tl2) ++ ('\x7d' :: rest))))))) := by
          simp [encodeMembers, encodeKey]
        have hpos := jsonStringify_length_pos v
        have hlens : (encodeMembers (.cons k v (.cons k2 w tl2))).length
            = (encodeStringBody k).length + 4 + (jsonStringify v).length
              + (encodeMembers (.cons k2 w tl2)).length := by
          simp [encodeMembers, encodeKey]
          omega
        have hlen1 : (jsonStringify v).length < f := by omega
        have hlen2 : (encodeMembers (.cons k2 w tl2)).length + 1 < f := by omega
        rw [hshape]
        simp only [parseMembers]
        rw [parseStringBody_encode k
          (':' :: (jsonStringify v ++ (',' :: (encodeMembers (.cons k2 w tl2)
            ++ ('\x7d' :: rest)))))]
        simp only [Option.map_some]
        rw [parseValue_stringify v f _ hlen1 (by simp [noDigitHead])]
        have hC := parseMembers_stringify (.cons k2 w tl2) f rest (fun h => nomatch h) hlen2
        simp [hC, normalizeMembers]

end

theorem jsonParse_stringify (v : JsonValue) :
    jsonParse (jsonStringify v) = some (jsonNormalize v) := by
  have h := parseValue_stringify v ((jsonStringify v).length + 1) [] (by omega) rfl
  rw [List.append_nil] at h
  simp [jsonParse, h]

theorem deepEqual_arr (l1 l2 : JsonList) :
    deepEqual (.arr l1) (.arr l2)
      = (if l1.length != l2.length then false else deepEqualList l1 l2) := by
  simp [deepEqual, jsStrictEq, isObjectType]

theorem deepEqual_obj (o1 o2 : JsonFields) :
    deepEqual (.obj o1) (.obj o2)
      = (if o1.length != o2.length then false else deepEqualFields o1 o2) := by
  simp [deepEqual, jsStrictEq, isObjectType]

theorem deepEqual_str_self (s : List Char) : deepEqual (.str s) (.str s) = true := by
  show (if jsStrictEq (.str s) (.str s) then true
        else if !isObjectType (JsonValue.str s) || !isObjectType (.str s) then false
        else false) = true
  simp [jsStrictEq, isObjectType]

theorem FieldMem_hasField (k : List Char) (v : JsonValue) (ps : JsonFields)
    (h : FieldMem k v ps) : hasField ps k = true := by
  induction h with
  | head tl => simp [hasField, lookupField]
  | tail k2 v2 tl hmem ih =>
    by_cases hk : k2 = k
    · simp [hasField, lookupField, hk]
    · simp only [hasField, lookupField, hk, if_false]
      simpa [hasField] using ih

theorem lookupField_of_fieldMem (k : List Char) (v : JsonValue) (ps : JsonFields)
    (hnodup : fieldsNodup ps = true) (h : FieldMem k v ps) :
    lookupField ps k = some v := by
  induction h with
  | head tl => simp [lookupField]
  | tail k2 v2 tl hmem ih =>
    simp only [fieldsNodup, Bool.and_eq_true, Bool.not_eq_true'] at hnodup
    by_cases hk : k2 = k
    · subst hk
      exact absurd (FieldMem_hasField k2 v tl hmem) (by simp [hnodup.1])
    · simp [lookupField, hk]
      exact ih hnodup.2

theorem normalizeElems_length (l : JsonList) :
    (normalizeElems l).length = l.length := by
  cases l with
  | nil => rfl
  | cons v tl => simp [normalizeElems, JsonList.length, normalizeElems_length tl]

theorem normalizeMembers_length (ps : JsonFields) :
    (normalizeMembers ps).length = ps.length := by
  cases ps with
  | nil => rfl
  | cons k v tl => simp [normalizeMembers, JsonFields.length, normalizeMembers_length tl]

mutual

theorem deepEqual_normalize (v : JsonValue) :
    noNaN v = true → distinctKeys v = true → deepEqual (jsonNormalize v) v = true := by
  cases v with
  | str s =>
    intro _ _
    rw [show jsonNormalize (.str s) = .str s from by simp [jsonNormalize]]
    exact deepEqual_str_self s
  | num nn =>
    cases nn with
    | nan =>
      intro h _
      exact absurd h (by simp [noNaN])
    | negZero =>
      intro _ _
      rfl
    | int n =>
      intro _ _
      rw [show jsonNormalize (.num (.int n)) = .num (.int n) from by simp [jsonNormalize]]
      simp [deepEqual_num, jsNumEq]
  | bool b =>
    intro _ _
    rw [show jsonNormalize (.bool b) = .bool b from by simp [jsonNormalize]]
    show (if jsStrictEq (.bool b) (.bool b) then true
          else if !isObjectType (JsonValue.bool b) || !isObjectType (.bool b) then false
          else false) = true
    simp [jsStrictEq, isObjectType]
  | null =>
    intro _ _
    rfl
  | arr l =>
    intro h1 h2
    rw [show jsonNormalize (.arr l) = .arr (normalizeElems l) from by simp [jsonNormalize]]
    rw [deepEqual_arr, normalizeElems_length, bne_self_eq_false]
    simp only [Bool.false_eq_true, if_false]
    exact deepEqualList_normalize l (by simpa [noNaN] using h1)
      (by simpa [distinctKeys] using h2)
  | obj ps =>
    intro h1 h2
    rw [show jsonNormalize (.obj ps) = .obj (normalizeMembers ps) from by
      simp [jsonNormalize]]
    rw [deepEqual_obj, normalizeMembers_length, bne_self_eq_false]
    simp only [Bool.false_eq_true, if_false]
    have h2' : fieldsNodup ps = true ∧ distinctKeysMembers ps = true := by
      simpa [distinctKeys] using h2
    exact deepEqualFields_normalize ps ps (by simpa [noNaN] using h1) h2'.2
      (fun k v hm => lookupField_of_fieldMem k v ps h2'.1 hm)

theorem deepEqualList_normalize (l : JsonList) :
    noNaNElems l = true → distinctKeysElems l = true →
    deepEqualList (normalizeElems l) l = true := by
  cases l with
  | nil =>
    intro _ _
    rfl
  | cons v tl =>
    intro h1 h2
    simp only [noNaNElems, Bool.and_eq_true] at h1
    simp only [distinctKeysElems, Bool.and_eq_true] at h2
    rw [show normalizeElems (.cons v tl) = .cons (jsonNormalize v) (normalizeElems tl)
      from by simp [normalizeElems]]
    simp only [deepEqualList, Bool.and_eq_true]
    exact ⟨deepEqual_normalize v h1.1 h2.1, deepEqualList_normalize tl h1.2 h2.2⟩

theorem deepEqualFields_normalize (ps : JsonFields) : ∀ (qs : JsonFields),
    noNaNMembers ps = true → distinctKeysMembers ps = true →
    (∀ (k : List Char) (v : JsonValue), FieldMem k v ps → lookupField qs k = some v) →
    deepEqualFields (normalizeMembers ps) qs = true := by
  cases ps with
  | nil =>
    intro qs _ _ _
    rfl
  | cons k v tl =>
    intro qs h1 h2 hlook
    simp only [noNaNMembers, Bool.and_eq_true] at h1
    simp only [distinctKeysMembers, Bool.and_eq_true] at h2
    have hkv : lookupField qs k = some v := hlook k v (FieldMem.head k v tl)
    rw [show normalizeMembers (.cons k v tl)
        = .cons k (jsonNormalize v) (normalizeMembers tl) from by simp [normalizeMembers]]
    simp only [deepEqualFields, hkv, Bool.and_eq_true]
    exact ⟨deepEqual_normalize v h1.1 h2.1,
      deepEqualFields_normalize tl qs h1.2 h2.2
        (fun k2 v2 hm => hlook k2 v2 (FieldMem.tail k2 v2 k v tl hm))⟩

end

/-! ## Claim theorems -/

/-- C10: `deepEqual` compares numbers with JS strict equality (`===`), not
SameValue: on numbers it agrees with `jsNumEq` everywhere, so
`deepEqual(0, -0)` is true while `deepEqual(NaN, NaN)` is false, and on a
number value `deepEqual` is reflexive exactly when the value is not
`NaN`. -/
theorem claim10_numbers_strict_equality :
    (∀ a b : JsNumber, deepEqual (.num a) (.num b) = jsNumEq a b) ∧
    deepEqual (.num (.int 0)) (.num .negZero) = true ∧
    deepEqual (.num .nan) (.num .nan) = false ∧
    (∀ a : JsNumber, (deepEqual (.num a) (.num a) = true ↔ a ≠ .nan)) := by
  refine ⟨deepEqual_num, rfl, rfl, fun a => ?_⟩
  rw [deepEqual_num]
  constructor
  · intro h hnan
    subst hnan
    simp [jsNumEq] at h
  · exact jsNumEq_refl a

/-- C10 witness: the two corner cases, concretely. -/
theorem claim10_numbers_strict_equality_witness :
    deepEqual (.num (.int 0)) (.num .negZero) = true ∧
    deepEqual (.num .nan) (.num .nan) = false ∧
    deepEqual (.num (.int 7)) (.num (.int 7)) = true :=
  ⟨claim10_numbers_strict_equality.2.1,
   claim10_numbers_strict_equality.2.2.1,
   (claim10_numbers_strict_equality.2.2.2 (.int 7)).mpr (by simp)⟩

/-- C3: on a storage event for the watched key and bound store in which
exactly one of the two texts is absent (the entry was created or deleted),
the filter always forwards the change signal, whatever the present text
is. -/
theorem claim3_creation_deletion_always_signal (sid : Nat) (key t : List Char) :
    onStorageUpdate sid key ⟨sid, some key, Option.none, some t⟩ = .notifyReact ∧
    onStorageUpdate sid key ⟨sid, some key, some t, Option.none⟩ = .notifyReact := by
  constructor <;> simp [onStorageUpdate]

/-- C2: on a storage event for the watched key and bound store whose two
texts are present and both decode, the filter forwards the change signal
iff the decoded values are not deeply equal; in particular an event whose
two (possibly raw-text-different) sides decode to deeply equal values —
the second of two consecutive writes of the same decoded value — is
suppressed. -/
theorem claim2_structural_change_filter (sid : Nat) (key o n : List Char)
    (oldParsed newParsed : JsonValue)
    (ho : jsonParse o = some oldParsed) (hn : jsonParse n = some newParsed) :
    (onStorageUpdate sid key ⟨sid, some key, some o, some n⟩ = .notifyReact
      ↔ deepEqual oldParsed newParsed = false) ∧
    (deepEqual oldParsed newParsed = true →
      onStorageUpdate sid key ⟨sid, some key, some o, some n⟩ = .none) := by
  have hmain : onStorageUpdate sid key ⟨sid, some key, some o, some n⟩
      = if !deepEqual oldParsed newParsed then .notifyReact else .none := by
    simp [onStorageUpdate, ho, hn]
  cases h : deepEqual oldParsed newParsed <;> simp [hmain, h]

/-- C2 witness: `{"a":1,"b":2}` rewritten as `{"b":2,"a":1}` — different
raw text, deeply equal decoded values — is suppressed, and a genuine
change (`1` to `2`) signals. -/
theorem claim2_structural_change_filter_witness :
    onStorageUpdate 0 ['k']
      ⟨0, some ['k'],
        some (jsonStringify (.obj (.cons ['a'] (.num (.int 1))
          (.cons ['b'] (.num (.int 2)) .nil)))),
        some (jsonStringify (.obj (.cons ['b'] (.num (.int 2))
          (.cons ['a'] (.num (.int 1)) .nil))))⟩ = .none ∧
    onStorageUpdate 0 ['k']
      ⟨0, some ['k'], some ['1'], some ['2']⟩ = .notifyReact := by
  constructor
  · exact (claim2_structural_change_filter 0 ['k']
      (jsonStringify (.obj (.cons ['a'] (.num (.int 1))
        (.cons ['b'] (.num (.int 2)) .nil))))
      (jsonStringify (.obj (.cons ['b'] (.num (.int 2))
        (.cons ['a'] (.num (.int 1)) .nil))))
      (.obj (.cons ['a'] (.num (.int 1)) (.cons ['b'] (.num (.int 2)) .nil)))
      (.obj (.cons ['b'] (.num (.int 2)) (.cons ['a'] (.num (.int 1)) .nil)))
      rfl rfl).2 rfl
  · exact (claim2_structural_change_filter 0 ['k'] ['1'] ['2']
      (.num (.int 1)) (.num (.int 2)) rfl rfl).1.mpr rfl

/-- C5: for every representable `JsonValue` (no `NaN` members, distinct
object keys — what an actual JS program can hold under the type), decoding
the text produced by encoding the value succeeds, and the decoded value —
`jsonNormalize` of the original, which collapses `-0` to `0` exactly as
the JS round trip does — is deeply equal to the original under
`deepEqual`. -/
theorem claim5_roundtrip (v : JsonValue) (h : representable v = true) :
    jsonParse (jsonStringify v) = some (jsonNormalize v) ∧
    deepEqual (jsonNormalize v) v = true := by
  have h2 : noNaN v = true ∧ distinctKeys v = true := by
    simpa [representable] using h
  exact ⟨jsonParse_stringify v, deepEqual_normalize v h2.1 h2.2⟩

/-- C5 witness: the nested value `{"a":[1,"x\"y",null,true],"z":-0}` round
trips up to deep equality (its `-0` decodes as `0`, deeply equal to
`-0`). -/
theorem claim5_roundtrip_witness :
    representable (.obj (.cons ['a']
        (.arr (.cons (.num (.int 1)) (.cons (.str ['x', '"', 'y'])
          (.cons .null (.cons (.bool true) .nil)))))
        (.cons ['z'] (.num .negZero) .nil))) = true ∧
    jsonParse (jsonStringify (.obj (.cons ['a']
        (.arr (.cons (.num (.int 1)) (.cons (.str ['x', '"', 'y'])
          (.cons .null (.cons (.bool true) .nil)))))
        (.cons ['z'] (.num .negZero) .nil))))
      = some (jsonNormalize (.obj (.cons ['a']
        (.arr (.cons (.num (.int 1)) (.cons (.str ['x', '"', 'y'])
          (.cons .null (.cons (.bool true) .nil)))))
        (.cons ['z'] (.num .negZero) .nil)))) ∧
    deepEqual (jsonNormalize (.obj (.cons ['a']
        (.arr (.cons (.num (.int 1)) (.cons (.str ['x', '"', 'y'])
          (.cons .null (.cons (.bool true) .nil)))))
        (.cons ['z'] (.num .negZero) .nil))))
      (.obj (.cons ['a']
        (.arr (.cons (.num (.int 1)) (.cons (.str ['x', '"', 'y'])
          (.cons .null (.cons (.bool true) .nil)))))
        (.cons ['z'] (.num .negZero) .nil))) = true :=
  ⟨rfl,
   (claim5_roundtrip (.obj (.cons ['a']
        (.arr (.cons (.num (.int 1)) (.cons (.str ['x', '"', 'y'])
          (.cons .null (.cons (.bool true) .nil)))))
        (.cons ['z'] (.num .negZero) .nil))) rfl).1,
   (claim5_roundtrip (.obj (.cons ['a']
        (.arr (.cons (.num (.int 1)) (.cons (.str ['x', '"', 'y'])
          (.cons .null (.cons (.bool true) .nil)))))
        (.cons ['z'] (.num .negZero) .nil))) rfl).2⟩

/-- C4: reading undecodable stored text yields `null` plus exactly one
decoding-error report and returns normally (the failure is caught inside
the read); reading an absent key yields `null` with no report. -/
theorem claim4_read_error_policy :
    (∀ (storage : Storage) (key text : List Char),
      getItem storage key = some text → jsonParse text = Option.none →
      readFromLocalStorage storage key = (.null, 1)) ∧
    (∀ (storage : Storage) (key : List Char),
      getItem storage key = Option.none →
      readFromLocalStorage storage key = (.null, 0)) := by
  constructor
  · intro s k t hget hbad
    simp [readFromLocalStorage, hget, hbad]
  · intro s k hget
    simp [readFromLocalStorage, hget]

/-- C4 witness: the stored text `{bad json` yields `null` plus one report;
an empty store yields `null` with none. -/
theorem claim4_read_error_policy_witness :
    readFromLocalStorage [(['k'], ['\x7b', 'b', 'a', 'd', ' ', 'j', 's', 'o', 'n'])] ['k']
      = (.null, 1) ∧
    readFromLocalStorage [] ['k'] = (.null, 0) :=
  ⟨claim4_read_error_policy.1 _ ['k'] _ rfl rfl,
   claim4_read_error_policy.2 [] ['k'] rfl⟩

theorem getItem_eraseItem (s : Storage) (key : List Char) :
    getItem (eraseItem s key) key = Option.none := by
  induction s with
  | nil => rfl
  | cons p rest ih =>
    obtain ⟨k, v⟩ := p
    by_cases h : k = key <;> simp [eraseItem, h, getItem, ih]

theorem getItem_setItem (s : Storage) (key text : List Char) :
    getItem (setItem s key text) key = some text := by
  simp [setItem, getItem]

theorem writeNewValue_no_removeFail_returns (key : List Char) (rnv : Bool)
    (v : JsonValue) (storage : Storage) (ef sf : Bool) :
    ∃ errs s2, writeNewValue key rnv v storage ef sf false = .returned errs s2 := by
  unfold writeNewValue
  by_cases h : (isNull v && rnv) = true
  · rw [if_pos h]
    exact ⟨[], removeItem storage key, by simp⟩
  · rw [if_neg h]
    cases ef
    · cases sf
      · exact ⟨[], setItem storage key (jsonStringify v), by simp⟩
      · exact ⟨[.storeSet], storage, by simp⟩
    · exact ⟨[.encoding], storage, by simp⟩

/-- C7: whenever the committed read is `null` (key absent or text
undecodable) and a fallback is configured, the exposed value is the
fallback; and `setValue(null)` with `removeNullValues = true` removes the
key (no error, no exception), after which the exposed value is the
fallback again. -/
theorem claim7_fallback_precedence :
    (∀ (storage : Storage) (key : List Char) (fb : JsonValue),
      (readFromLocalStorage storage key).1 = .null →
      hookValue (readFromLocalStorage storage key).1 (some fb) = fb) ∧
    (∀ (storage : Storage) (key : List Char) (fb hv : JsonValue),
      setLocalStorageValue key true hv (.literal .null) storage false false false
        = .returned [] (removeItem storage key) ∧
      getItem (removeItem storage key) key = Option.none ∧
      hookValue (readFromLocalStorage (removeItem storage key) key).1 (some fb) = fb) := by
  constructor
  · intro storage key fb h
    rw [h]
    rfl
  · intro storage key fb hv
    refine ⟨rfl, getItem_eraseItem storage key, ?_⟩
    have hread : readFromLocalStorage (removeItem storage key) key = (.null, 0) := by
      simp [readFromLocalStorage, removeItem, getItem_eraseItem storage key]
    rw [hread]
    rfl

/-- C7 witness: fallback `42` exposed on an empty store, and exposed again
after the removal that `setValue(null)` performs on a store holding `7`
under the key. -/
theorem claim7_fallback_precedence_witness :
    hookValue (readFromLocalStorage [] ['k']).1 (some (.num (.int 42))) = .num (.int 42) ∧
    hookValue (readFromLocalStorage (removeItem [(['k'], ['7'])] ['k']) ['k']).1
        (some (.num (.int 42))) = .num (.int 42) :=
  ⟨claim7_fallback_precedence.1 [] ['k'] (.num (.int 42)) rfl,
   (claim7_fallback_precedence.2 [(['k'], ['7'])] ['k'] (.num (.int 42)) .null).2.2⟩

/-- C8: a functional payload is applied to the current effective value
(the `hookValue`, which is the fallback when the store yields nothing) and
its non-null result is encoded and stored; with fallback `5` and an empty
store, `setValue(cur => cur + 1)` stores the text `6`. -/
theorem claim8_functional_update :
    (∀ (key : List Char) (rnv : Bool) (hv newValue : JsonValue)
        (f : JsonValue → JsResult JsonValue) (storage : Storage),
      f hv = .ok newValue → isNull newValue = false →
      setLocalStorageValue key rnv hv (.updater f) storage false false false
        = .returned [] (setItem storage key (jsonStringify newValue))) ∧
    (∀ key : List Char,
      setLocalStorageValue key true
        (hookValue (readFromLocalStorage [] key).1 (some (.num (.int 5))))
        (.updater fun cur =>
          match cur with
          | .num (.int n) => .ok (.num (.int (n + 1)))
          | _ => .ok .null)
        [] false false false
        = .returned [] [(key, ['6'])]) := by
  constructor
  · intro key rnv hv newValue f storage hf hnull
    simp [setLocalStorageValue, hf, writeNewValue, hnull]
  · intro key
    rfl

/-- C8 witness: the concrete fallback-`5`, empty-store increment, storing
the text `6`. -/
theorem claim8_functional_update_witness :
    setLocalStorageValue ['k'] true
      (hookValue (readFromLocalStorage [] ['k']).1 (some (.num (.int 5))))
      (.updater fun cur =>
        match cur with
        | .num (.int n) => .ok (.num (.int (n + 1)))
        | _ => .ok .null)
      [] false false false
      = .returned [] [(['k'], ['6'])] :=
  claim8_functional_update.2 ['k']

/-- C9: with `removeNullValues = false`, `setValue(null)` encodes `null`
and stores the text `null` under the key; a later read decodes that text
to `null` with no error, so the exposed value coincides with the exposed
value over an absent key for every fallback configuration — an explicitly
stored `null` is indistinguishable from an absent key at the hook's
interface. -/
theorem claim9_stored_null_indistinguishable :
    (∀ (key : List Char) (hv : JsonValue) (storage : Storage),
      setLocalStorageValue key false hv (.literal .null) storage false false false
        = .returned [] (setItem storage key ['n', 'u', 'l', 'l'])) ∧
    (∀ (key : List Char) (storage : Storage),
      readFromLocalStorage (setItem storage key ['n', 'u', 'l', 'l']) key = (.null, 0)) ∧
    (∀ (key : List Char) (storage : Storage) (fallbackValue : Option JsonValue),
      hookValue (readFromLocalStorage (setItem storage key ['n', 'u', 'l', 'l']) key).1
          fallbackValue
        = hookValue (readFromLocalStorage (removeItem storage key) key).1 fallbackValue) := by
  have hread : ∀ (key : List Char) (storage : Storage),
      readFromLocalStorage (setItem storage key ['n', 'u', 'l', 'l']) key = (.null, 0) := by
    intro key storage
    simp only [readFromLocalStorage, getItem_setItem]
    rfl
  refine ⟨fun key hv storage => rfl, hread, fun key storage fallbackValue => ?_⟩
  have hread2 : readFromLocalStorage (removeItem storage key) key = (.null, 0) := by
    simp [readFromLocalStorage, removeItem, getItem_eraseItem storage key]
  rw [hread, hread2]

/-- C1 as frozen is false at the input below: the claim asserts that a
store *remove* failure is caught inside `setValue` and routed to
`onError`, but the source's `localStorage.removeItem(key)` call (line 149)
sits outside every `try` block, so on a store whose `removeItem` throws,
`setValue(null)` with `removeNullValues = true` lets the exception escape
to the caller. -/
theorem claim1_counterexample :
    setLocalStorageValue ['k'] true .null (.literal .null) [] false false true
      = .threw .storeRemove [] ∧
    ¬ (∀ (key : List Char) (rnv : Bool) (hv : JsonValue) (payload : SetPayload)
         (storage : Storage) (ef sf rf : Bool) (e : ErrorKind) (s : Storage),
        setLocalStorageValue key rnv hv payload storage ef sf rf ≠ .threw e s) :=
  ⟨rfl, fun h =>
    h ['k'] true .null (.literal .null) [] false false true .storeRemove [] rfl⟩

/-- C1 amended: an encoding failure, a store `setItem` failure, and an
exception thrown by a functional updater are each caught inside
`setValue` and routed to the `onError` callback (the write being skipped),
and whenever the store's `removeItem` does not fail, no exception escapes
`setValue`; a `removeItem` failure, however, is not caught and propagates
to the caller. -/
theorem claim1_amended_error_routing :
    (∀ (key : List Char) (rnv : Bool) (hv : JsonValue)
        (f : JsonValue → JsResult JsonValue) (e : ErrorKind) (storage : Storage)
        (ef sf rf : Bool),
      f hv = .thrown e →
      setLocalStorageValue key rnv hv (.updater f) storage ef sf rf
        = .returned [e] storage) ∧
    (∀ (key : List Char) (rnv : Bool) (hv newValue : JsonValue) (storage : Storage)
        (sf rf : Bool),
      (isNull newValue && rnv) = false →
      setLocalStorageValue key rnv hv (.literal newValue) storage true sf rf
        = .returned [.encoding] storage) ∧
    (∀ (key : List Char) (rnv : Bool) (hv newValue : JsonValue) (storage : Storage)
        (rf : Bool),
      (isNull newValue && rnv) = false →
      setLocalStorageValue key rnv hv (.literal newValue) storage false true rf
        = .returned [.storeSet] storage) ∧
    (∀ (key : List Char) (rnv : Bool) (hv : JsonValue) (payload : SetPayload)
        (storage : Storage) (ef sf : Bool) (e : ErrorKind) (s : Storage),
      setLocalStorageValue key rnv hv payload storage ef sf false ≠ .threw e s) := by
  refine ⟨?_, ?_, ?_, ?_⟩
  · intro key rnv hv f e storage ef sf rf hf
    simp [setLocalStorageValue, hf]
  · intro key rnv hv newValue storage sf rf h
    simp [setLocalStorageValue, writeNewValue, h]
  · intro key rnv hv newValue storage rf h
    simp [setLocalStorageValue, writeNewValue, h]
  · intro key rnv hv payload storage ef sf e s
    cases payload with
    | updater f =>
      cases hf : f hv with
      | thrown e2 => simp [setLocalStorageValue, hf]
      | ok v =>
        obtain ⟨errs, s2, hw⟩ := writeNewValue_no_removeFail_returns key rnv v storage ef sf
        simp [setLocalStorageValue, hf, hw]
    | literal v =>
      obtain ⟨errs, s2, hw⟩ := writeNewValue_no_removeFail_returns key rnv v storage ef sf
      simp [setLocalStorageValue, hw]

/-- C1 amended witness: the three caught-and-routed failures and a normal
remove, concretely. -/
theorem claim1_amended_error_routing_witness :
    setLocalStorageValue ['k'] true (.num (.int 1))
      (.updater fun _ => .thrown .updater) [] false false false
      = .returned [.updater] [] ∧
    setLocalStorageValue ['k'] true .null (.literal (.num (.int 2))) [] true false false
      = .returned [.encoding] [] ∧
    setLocalStorageValue ['k'] true .null (.literal (.num (.int 2))) [] false true false
      = .returned [.storeSet] [] ∧
    setLocalStorageValue ['k'] true .null (.literal .null) [] false false false
      ≠ .threw .storeRemove [] :=
  ⟨claim1_amended_error_routing.1 ['k'] true (.num (.int 1)) _ .updater [] false false false rfl,
   claim1_amended_error_routing.2.1 ['k'] true .null (.num (.int 2)) [] false false rfl,
   claim1_amended_error_routing.2.2.1 ['k'] true .null (.num (.int 2)) [] false rfl,
   claim1_amended_error_routing.2.2.2 ['k'] true .null (.literal .null) [] false false
     .storeRemove []⟩

/-- C6: with `syncFallbackOnMount` enabled, a fallback configured and the
key absent at mount, the encoded fallback is written to the store exactly
once, at mount; the mount effect is marked as having run, after which any
sequence of re-renders — with arbitrary, possibly changed fallback values
— leaves the store untouched; and when the key already holds a decodable
non-null value at mount, nothing is written at all. -/
theorem claim6_mount_sync_once :
    (∀ (key : List Char) (fb : JsonValue) (storage : Storage),
      getItem storage key = Option.none →
      (mountHook key true (some fb) storage).storage
        = setItem storage key (jsonStringify fb)) ∧
    (∀ (key : List Char) (sync : Bool) (fbs : List (Option JsonValue)) (inst : HookInstance),
      inst.effectRan = true →
      (fbs.foldl (fun i fb => renderStep key sync fb i) inst).storage = inst.storage) ∧
    (∀ (key : List Char) (sync : Bool) (fb : Option JsonValue) (storage : Storage),
      (mountHook key sync fb storage).effectRan = true) ∧
    (∀ (key text : List Char) (v fb : JsonValue) (storage : Storage),
      getItem storage key = some text → jsonParse text = some v → isNull v = false →
      (mountHook key true (some fb) storage).storage = storage) := by
  refine ⟨?_, ?_, ?_, ?_⟩
  · intro key fb storage hget
    simp [mountHook, renderStep, mountSyncEffect, readFromLocalStorage, hget, isNull]
  · intro key sync fbs
    induction fbs with
    | nil => intro inst h; rfl
    | cons fb rest ih =>
      intro inst h
      simp only [List.foldl_cons, renderStep, h, if_true]
      exact ih inst h
  · intro key sync fb storage
    cases fb <;> rfl
  · intro key text v fb storage hget hparse hnull
    simp [mountHook, renderStep, mountSyncEffect, readFromLocalStorage, hget, hparse, hnull]

/-- C6 witness: fallback `{"n":0}` synced once onto an empty store; two
further renders (one with a different fallback, one with the fallback
removed) leave the store unchanged; a store already holding `7` is not
written. -/
theorem claim6_mount_sync_once_witness :
    (mountHook ['k'] true (some (.obj (.cons ['n'] (.num (.int 0)) .nil))) []).storage
      = [(['k'], jsonStringify (.obj (.cons ['n'] (.num (.int 0)) .nil)))] ∧
    (([some (.num (.int 9)), Option.none].foldl
        (fun i fb => renderStep ['k'] true fb i)
        (mountHook ['k'] true (some (.obj (.cons ['n'] (.num (.int 0)) .nil))) [])).storage
      = (mountHook ['k'] true (some (.obj (.cons ['n'] (.num (.int 0)) .nil))) []).storage) ∧
    (mountHook ['k'] true (some (.num (.int 1))) [(['k'], ['7'])]).storage
      = [(['k'], ['7'])] :=
  ⟨claim6_mount_sync_once.1 ['k'] (.obj (.cons ['n'] (.num (.int 0)) .nil)) [] rfl,
   claim6_mount_sync_once.2.1 ['k'] true [some (.num (.int 9)), Option.none]
     (mountHook ['k'] true (some (.obj (.cons ['n'] (.num (.int 0)) .nil))) [])
     (claim6_mount_sync_once.2.2.1 ['k'] true
       (some (.obj (.cons ['n'] (.num (.int 0)) .nil))) []),
   claim6_mount_sync_once.2.2.2 ['k'] ['7'] (.num (.int 7)) (.num (.int 1))
     [(['k'], ['7'])] rfl rfl rfl⟩

end UseLocalStorage
